import Mathlib

/-!
Verification of the blog builder (`build.py`).

The script is embedded shallowly: strings are `List Char`, the filesystem of an
article's output directory is a list of file names, and the external tools
(git, pandoc) are opaque functions supplied through environment records whose
results are `Except` values, mirroring "subprocess may raise".
-/

namespace BlogBuild

/-- Strings of the model: Python `str` as a list of characters. -/
abbrev Str : Type := List Char

/-- Coercion from Lean string literals into the model's strings. -/
def lit (s : String) : Str := s.data

/-- Python `s.replace(a, b)` for single characters (`build.py` line 252,
`commit_date.replace(' ', 'T')`). -/
def pyReplace (a b : Char) (s : Str) : Str :=
  (s : List Char).map fun c => if c = a then b else c

/-- Python `s.split(sep)[0]` for a single-character separator
(`build.py` line 252, `.split('+')[0]`): everything before the first
occurrence of `sep` (the whole string when `sep` is absent). -/
def pySplitHead (sep : Char) (s : Str) : Str :=
  (s : List Char).takeWhile fun c => c ≠ sep

/-- Python `s.rsplit(sep, 1)[0]` for a single-character separator
(`build.py` line 252, `.rsplit(':', 1)[0]`): everything before the last
occurrence of `sep`, or the whole string when `sep` is absent. -/
def pyRsplitHead (sep : Char) (s : Str) : Str :=
  if sep ∈ (s : List Char) then
    ((((s : List Char).reverse).dropWhile fun c => c ≠ sep).drop 1).reverse
  else s

/-- The output slug of a revision (`build.py` line 252):
`commit_date.replace(' ', 'T').split('+')[0].rsplit(':', 1)[0]`. -/
def version_timestamp (commit_date : Str) : Str :=
  pyRsplitHead ':' (pySplitHead '+' (pyReplace ' ' 'T' commit_date))

/-- The file name a revision is rendered to (`build.py` line 253):
`f"{version_timestamp}.html"`. -/
def slugFilename (commit_date : Str) : Str :=
  version_timestamp commit_date ++ lit ".html"

/-- Python `s.split()[0]` (`build.py` lines 259, 266, 505, 576, 603):
the first whitespace-delimited token, skipping leading whitespace. -/
def displayDate (s : Str) : Str :=
  ((s : List Char).dropWhile fun c => c.isWhitespace).takeWhile fun c => ¬ c.isWhitespace

/-- A commit timestamp of the shape `YYYY-MM-DD HH:MM:SS +ZZZZ`
(git's `%ci` format, the external contract assumed by the spec). -/
def TsShape (ts : Str) : Prop :=
  ∃ y1 y2 y3 y4 o1 o2 d1 d2 h1 h2 n1 n2 s1 s2 z1 z2 z3 z4 : Char,
    ([y1, y2, y3, y4, o1, o2, d1, d2, h1, h2, n1, n2, s1, s2,
      z1, z2, z3, z4].all Char.isDigit) = true ∧
    (ts : List Char) = [y1, y2, y3, y4, '-', o1, o2, '-', d1, d2, ' ',
      h1, h2, ':', n1, n2, ':', s1, s2, ' ', '+', z1, z2, z3, z4]

/-! ## The Article Builder (`BlogBuilder.build_article`, lines 187-277)

The filesystem of the article's output directory is a list of file names in
creation order; writing an existing name overwrites in place (no new entry),
mirroring a directory's contents.  External tools are opaque functions in an
environment record; a `.error` models a raised exception. -/

/-- A git revision of a document: `(commit_hash, commit_date)` as produced by
`get_git_history`. -/
structure Rev where
  hash : Str
  date : Str
deriving DecidableEq

/-- The external collaborators of one `build_article` call:
`get_file_at_commit` (git show), pandoc conversion of given source text,
the current working-tree content of the file, and the current build date
(`get_current_time().strftime("%Y-%m-%d")`). -/
structure Env where
  fetch : Str → Except Str Str
  convert : Str → Except Str Unit
  working : Str
  now : Str

/-- One rendered page: output file name and the `date` metadata passed to
pandoc. -/
structure Page where
  name : Str
  date : Str
deriving DecidableEq

/-- Creating a file: a fresh name is appended, an existing name is
  overwritten in place. -/
def writeFile (fs : List Str) (n : Str) : List Str :=
  if n ∈ fs then fs else fs ++ [n]

/-- `Path.unlink` / the `finally` cleanup: the name disappears from the
directory. -/
def deleteFile (fs : List Str) (n : Str) : List Str :=
  fs.filter fun m => m ≠ n

def navTopName : Str := lit ".nav-top.html"

def navBottomName : Str := lit ".nav-bottom.html"

def latestName : Str := lit "latest.html"

def indexName : Str := lit "index.html"

/-- Whether fetching and rendering revision `v` succeeds (the body of the
inner `try` at lines 256-261 raises no exception). -/
def revOk (env : Env) (v : Rev) : Bool :=
  match env.fetch v.hash with
  | Except.error _ => false
  | Except.ok content =>
    match env.convert content with
    | Except.error _ => false
    | Except.ok _ => true

/-- State threaded through the per-revision loop: directory contents, pages
written so far, warnings printed so far. -/
structure RevLoopOut where
  fs : List Str
  pages : List Page
  warnings : Nat
deriving DecidableEq

/-- One iteration of the loop at lines 249-263: fetch the content at the
commit and render it to the slug-named file; any exception is caught,
reported as a warning and the revision is skipped. -/
def revStep (env : Env) (acc : RevLoopOut) (v : Rev) : RevLoopOut :=
  match env.fetch v.hash with
  | Except.error _ => ⟨acc.fs, acc.pages, acc.warnings + 1⟩
  | Except.ok content =>
    match env.convert content with
    | Except.error _ => ⟨acc.fs, acc.pages, acc.warnings + 1⟩
    | Except.ok _ =>
      ⟨writeFile acc.fs (slugFilename v.date),
        acc.pages ++ [⟨slugFilename v.date, displayDate v.date⟩],
        acc.warnings⟩

/-- The loop over all historical revisions (lines 249-263). -/
def processRevisions (env : Env) (fs : List Str) (versions : List Rev) : RevLoopOut :=
  versions.foldl (revStep env) ⟨fs, [], 0⟩

/-- The `date` metadata of the `latest.html` page (lines 245-246 and 266):
the calendar date of the newest revision, or the current build date when the
document has no git history. -/
def latestDate (env : Env) (versions : List Rev) : Str :=
  match versions.getLast? with
  | none => env.now
  | some v => displayDate v.date

/-- Collection navigation data passed by `build_collections` (lines 173-179):
collection name and the neighbouring members' file stems. -/
structure NavInfo where
  collection_name : Str
  prev : Option Str
  next : Option Str

/-- The outcome of one `build_article` call: final directory contents, the
pages rendered (in order), the number of warnings printed, and `some e` when
an exception propagated out of the call. -/
structure ArticleResult where
  fs : List Str
  pages : List Page
  warnings : Nat
  err : Option Str
deriving DecidableEq

/-- `BlogBuilder.build_article` (lines 187-277) for an already-computed
output directory with initial contents `fs0`:
nav fragment files are created (lines 218-238), the `try` block renders every
historical revision and then the latest page - or only the latest page when
there is no history (lines 240-268) - the `finally` block deletes the nav
files (lines 269-274), and `generate_version_index` runs only when nothing
propagated (line 277). -/
def buildArticle (env : Env) (isCollection : Bool) (navInfo : Option NavInfo)
    (versions : List Rev) (fs0 : List Str) : ArticleResult :=
  let navTopCreated := navInfo.isSome
  let navBottomCreated := navInfo.isSome || !isCollection
  let fs1 := if navTopCreated then writeFile fs0 navTopName else fs0
  let fs2 := if navBottomCreated then writeFile fs1 navBottomName else fs1
  let body : RevLoopOut × Option Str :=
    match versions with
    | [] =>
      match env.convert env.working with
      | Except.error e => (⟨fs2, [], 0⟩, some e)
      | Except.ok _ =>
        (⟨writeFile fs2 latestName, [⟨latestName, env.now⟩], 0⟩, none)
    | _ :: _ =>
      let r := processRevisions env fs2 versions
      match env.convert env.working with
      | Except.error e => (r, some e)
      | Except.ok _ =>
        (⟨writeFile r.fs latestName,
          r.pages ++ [⟨latestName, latestDate env versions⟩], r.warnings⟩, none)
  let fs3 := if navTopCreated then deleteFile body.1.fs navTopName else body.1.fs
  let fs4 := if navBottomCreated then deleteFile fs3 navBottomName else fs3
  match body.2 with
  | some e => ⟨fs4, body.1.pages, body.1.warnings, some e⟩
  | none => ⟨writeFile fs4 indexName, body.1.pages, body.1.warnings, none⟩

/-! ## Navigation HTML (`generate_nav_html`, lines 387-430, and its call
sites in `build_collections`, lines 169-182) -/

def hrLine : Str := lit "<hr style=\"margin: 2em 0; border: none; border-top: 1px solid #ddd;\">"

def navOpen : Str := lit "<nav style=\"margin: 1em 0;\">"

def collectionLabel (c : Str) : Str :=
  lit "<p style=\"color: #666; font-size: 0.9em; margin-bottom: 0.5em;\">Collection: "
    ++ c ++ lit "</p>"

def prevLinkStr (p : Str) : Str :=
  lit "<a href=\"../" ++ p ++ lit "/latest.html\">← Previous: " ++ p ++ lit "</a>"

def nextLinkStr (n : Str) : Str :=
  lit "<a href=\"../" ++ n ++ lit "/latest.html\">Next: " ++ n ++ lit " →</a>"

def indexLinkStr : Str := lit "<a href=\"../index.html\">Collection Index</a>"

/-- `generate_nav_html`: the list `nav_parts` the function assembles and
joins with newlines; `bottom = true` is `position='bottom'` (rule above the
block), `bottom = false` is `position='top'` (rule below the block). -/
def generate_nav_html (info : NavInfo) (bottom : Bool) : List Str :=
  (if bottom then [hrLine] else []) ++
  [navOpen, collectionLabel info.collection_name, lit "<p>"] ++
  (match info.prev with
   | some p => [prevLinkStr p, lit " | "]
   | none => []) ++
  [indexLinkStr] ++
  (match info.next with
   | some n => [lit " | ", nextLinkStr n]
   | none => []) ++
  [lit "</p>", lit "</nav>"] ++
  (if bottom then [] else [hrLine])

/-- The `nav_info` dictionary `build_collections` passes for member `i` of
the path-sorted member stems (lines 169-179): the neighbouring stems, `none`
at the two boundaries. -/
def navInfoAt (cname : Str) (stems : List Str) (i : Nat) : NavInfo :=
  ⟨cname,
   if 0 < i then stems[i-1]? else none,
   if i < stems.length - 1 then stems[i+1]? else none⟩

/-- The text marking a "previous" link in the rendered fragment. -/
def prevMarker : Str := lit "← Previous: "

/-- The text marking a "next" link in the rendered fragment. -/
def nextMarker : Str := lit "Next: "

/-- Characters that occur in reasonable article/collection names (file
stems): letters, digits, dash, underscore, dot. -/
def safeChar (c : Char) : Bool := c.isAlphanum || c = '-' || c = '_' || c = '.'

def safeName (s : Str) : Prop := ∀ c ∈ s, safeChar c = true

instance safeNameDecidable (s : Str) : Decidable (safeName s) :=
  inferInstanceAs (Decidable (∀ c ∈ s, safeChar c = true))

/-- The fragment (a list of HTML parts) contains the marker text somewhere. -/
def containsMarker (parts : List Str) (m : Str) : Prop := ∃ s ∈ parts, m <:+: s

/-! ## Version index (`generate_version_index`, lines 432-468) -/

/-- The history listing of the version index: `glob("*.html")` filtered of
`index.html` and `latest.html`, sorted descending
(`sorted([...], reverse=True)`, line 434). -/
def version_index_listing (files : List Str) : List Str :=
  ((files.filter fun f =>
      (lit ".html").isSuffixOf f && f ≠ indexName && f ≠ latestName).mergeSort
    fun a b => decide (a ≤ b)).reverse

/-! ## Git history (`get_git_history`, lines 279-313) -/

/-- Outcomes of the two subprocess calls inside `get_git_history`:
`git ls-files --error-unmatch` (`.error` = the call itself raised, `.ok rc` =
its return code) and `git log --follow` (`.error` = raised, e.g.
`CalledProcessError` from `check=True`; `.ok` = its stdout). -/
structure GitEnv where
  lsFiles : Except Str Nat
  log : Except Str Str

def isWS (c : Char) : Bool := c.isWhitespace

/-- Python `str.strip()`. -/
def pyStrip (s : Str) : Str :=
  (((s : List Char).dropWhile isWS).reverse.dropWhile isWS).reverse

/-- Python `line.split(maxsplit=1)`: at most two whitespace-separated
fields, the second kept verbatim up to its trailing end. -/
def pySplitMax1 (l : Str) : List Str :=
  let l1 := (l : List Char).dropWhile isWS
  let tok := l1.takeWhile fun c => !isWS c
  let rest := (l1.dropWhile fun c => !isWS c).dropWhile isWS
  if l1 = [] then [] else if rest = [] then [tok] else [tok, rest]

/-- Parsing of the `git log --format=%H %ci` output (lines 302-307):
split into lines, skip empty ones, keep the lines that split into a hash and
a date. -/
def parseGitLog (raw : Str) : List Rev :=
  (((pyStrip raw).splitOn '\n').filterMap fun line =>
    if line = [] then none
    else match pySplitMax1 line with
      | [h, rest] => some (⟨h, rest⟩ : Rev)
      | _ => none)

/-- `get_git_history`: result list and whether a warning was printed.
The `try` at line 281 wraps everything; any raised failure is caught at line
311 and turned into a warning and an empty list; a non-zero `ls-files`
return code (file not tracked) returns an empty list silently; on success
the parsed log is reversed so the oldest revision comes first (line 309). -/
def get_git_history (genv : GitEnv) : List Rev × Bool :=
  match genv.lsFiles with
  | Except.error _ => ([], true)
  | Except.ok rc =>
    if rc ≠ 0 then ([], false)
    else
      match genv.log with
      | Except.error _ => ([], true)
      | Except.ok raw => ((parseGitLog raw).reverse, false)

/-! ## Output directory and site-index URL computation
(`build_article` lines 190-211, `generate_main_index` lines 607-613).

A filesystem path is its list of components; `pathlib` normalizes away the
`.` produced by `Path("name.tex").parent`, so the relative directory of a
blog source directly under `blogs/` is the empty component list. -/

/-- `tex_file.parent.name` for a blog source at relative directory `d`:
the last component, or the root directory's own name `blogs` when the file
sits directly in the root. -/
def parentNameBlogs (d : List Str) : Str := d.getLast?.getD (lit "blogs")

/-- The output directory for a standalone post (lines 203-211):
`docs/blogs/<rel parent>` when the file sits in an eponymous folder,
else `docs/blogs/<rel parent>/<article name>`. -/
def outputDirBlogs (d : List Str) (stem : Str) : List Str :=
  if parentNameBlogs d = stem
  then [lit "docs", lit "blogs"] ++ d
  else [lit "docs", lit "blogs"] ++ d ++ [stem]

/-- The output directory for a collection member (lines 191-201): both
branches of the source's `if` produce
`docs/collections/<collection>/<article name>`. -/
def outputDirCollection (cname stem : Str) : List Str :=
  [lit "docs", lit "collections", cname, stem]

/-- `str(rel_path.parent)` as path components: `Path(".")` prints as `"."`. -/
def pathStrParts (d : List Str) : List Str := if d = [] then [lit "."] else d

/-- The URL `generate_main_index` computes for a standalone post
(lines 607-613), as components of the f-string. -/
def mainIndexUrlBlogs (d : List Str) (stem : Str) : List Str :=
  if parentNameBlogs d = stem
  then lit "blogs" :: (pathStrParts d ++ [lit "index.html"])
  else lit "blogs" :: (pathStrParts d ++ [stem, lit "index.html"])

/-- URL resolution: a `.` path segment refers to the enclosing directory and
disappears. -/
def resolveDots (l : List Str) : List Str := l.filter fun c => c ≠ lit "."

/-! ## Collections and the site index
(`build_collections` lines 150-185, `generate_main_index` lines 561-588) -/

/-- One subdirectory of `collections/`: its name and the path-sorted stems
of the `.tex` files found by `rglob`. -/
structure ColSrc where
  name : Str
  files : List Str
deriving DecidableEq

/-- Build-wide external state: per-article git history, per-article build
environment, and the current build date. -/
structure SiteEnv where
  history : Str → List Rev
  articleEnv : Str → Env
  now : Str

/-- `versions[-1][1].split()[0]` guarded by `if versions:`. -/
def lastDateOf (revs : List Rev) : Option Str :=
  revs.getLast?.map fun v => displayDate v.date

/-- The output paths (as component lists rooted at the repository) written
while `build_collections` processes one collection (lines 156-185): nothing
when the collection holds no `.tex` files (`continue` at line 166);
otherwise every file of every member's article directory, plus the
collection index written by `generate_collection_index`. -/
def buildCollectionOutputs (senv : SiteEnv) (c : ColSrc) : List (List Str) :=
  if c.files = [] then []
  else
    (c.files.enum.flatMap fun iv =>
      ((buildArticle (senv.articleEnv iv.2) true (some (navInfoAt c.name c.files iv.1))
          (senv.history iv.2) []).fs).map
        fun f => [lit "docs", lit "collections", c.name, iv.2, f]) ++
    [[lit "docs", lit "collections", c.name, lit "index.html"]]

def buildCollectionsOutputs (senv : SiteEnv) (cols : List ColSrc) : List (List Str) :=
  cols.flatMap (buildCollectionOutputs senv)

/-- One collection's entry on the site index page (lines 583-587): name,
link URL (as components relative to the output root), article count, and
displayed date. -/
structure ColEntry where
  name : Str
  url : List Str
  count : Nat
  date : Str
deriving DecidableEq

/-- The date shown for a collection on the site index (lines 571-581):
maximum of the members' newest-revision dates, or the build date when no
member has history. -/
def collectionLatestDate (senv : SiteEnv) (files : List Str) : Str :=
  (files.foldl (fun acc stem =>
    match lastDateOf (senv.history stem) with
    | none => acc
    | some fd =>
      match acc with
      | none => some fd
      | some cur => if cur < fd then some fd else acc) none).getD senv.now

/-- The Collections section of the site index (lines 561-588): one entry per
subdirectory of `collections/`, whether or not it holds any `.tex` file. -/
def mainIndexCollectionEntries (senv : SiteEnv) (cols : List ColSrc) : List ColEntry :=
  cols.map fun c =>
    ⟨c.name, [lit "collections", c.name, lit "index.html"], c.files.length,
      collectionLatestDate senv c.files⟩

/-! # Theorems -/

/-! ### The slug transform -/

theorem digit_ne_space {c : Char} (h : c.isDigit = true) : (c = ' ') = False := by
  simp only [eq_iff_iff, iff_false]
  rintro rfl
  exact absurd h (by decide)

theorem digit_ne_plus {c : Char} (h : c.isDigit = true) : (c = '+') = False := by
  simp only [eq_iff_iff, iff_false]
  rintro rfl
  exact absurd h (by decide)

theorem digit_ne_colon {c : Char} (h : c.isDigit = true) : (c = ':') = False := by
  simp only [eq_iff_iff, iff_false]
  rintro rfl
  exact absurd h (by decide)

/-- On a well-shaped timestamp the slug is the timestamp truncated to minute
precision, with the date-time separator space turned into `T`, the timezone
offset and the seconds dropped. -/
theorem version_timestamp_of_shape
    (y1 y2 y3 y4 o1 o2 d1 d2 h1 h2 n1 n2 s1 s2 z1 z2 z3 z4 : Char)
    (hd : ([y1, y2, y3, y4, o1, o2, d1, d2, h1, h2, n1, n2, s1, s2,
      z1, z2, z3, z4].all Char.isDigit) = true) :
    version_timestamp ([y1, y2, y3, y4, '-', o1, o2, '-', d1, d2, ' ',
        h1, h2, ':', n1, n2, ':', s1, s2, ' ', '+', z1, z2, z3, z4] : List Char)
      = ([y1, y2, y3, y4, '-', o1, o2, '-', d1, d2, 'T', h1, h2, ':', n1, n2] : List Char) := by
  simp only [List.all_cons, List.all_nil, Bool.and_eq_true] at hd
  obtain ⟨e1, e2, e3, e4, f1, f2, g1, g2, k1, k2, l1, l2, m1, m2, p1, p2, p3, p4, -⟩ := hd
  simp [version_timestamp, pyReplace, pySplitHead, pyRsplitHead,
    digit_ne_space e1, digit_ne_space e2, digit_ne_space e3, digit_ne_space e4,
    digit_ne_space f1, digit_ne_space f2, digit_ne_space g1, digit_ne_space g2,
    digit_ne_space k1, digit_ne_space k2, digit_ne_space l1, digit_ne_space l2,
    digit_ne_space m1, digit_ne_space m2, digit_ne_space p1, digit_ne_space p2,
    digit_ne_space p3, digit_ne_space p4,
    digit_ne_plus e1, digit_ne_plus e2, digit_ne_plus e3, digit_ne_plus e4,
    digit_ne_plus f1, digit_ne_plus f2, digit_ne_plus g1, digit_ne_plus g2,
    digit_ne_plus k1, digit_ne_plus k2, digit_ne_plus l1, digit_ne_plus l2,
    digit_ne_plus m1, digit_ne_plus m2,
    digit_ne_colon e1, digit_ne_colon e2, digit_ne_colon e3, digit_ne_colon e4,
    digit_ne_colon f1, digit_ne_colon f2, digit_ne_colon g1, digit_ne_colon g2,
    digit_ne_colon k1, digit_ne_colon k2, digit_ne_colon l1, digit_ne_colon l2,
    digit_ne_colon m1, digit_ne_colon m2]

/-! ### Characterization of the article builder -/

theorem mem_writeFile {fs : List Str} {n x : Str} :
    x ∈ writeFile fs n ↔ x ∈ fs ∨ x = n := by
  unfold writeFile
  by_cases h : n ∈ fs
  · simp only [if_pos h]
    constructor
    · exact Or.inl
    · rintro (hx | rfl) <;> assumption
  · simp [if_neg h]

theorem mem_deleteFile {fs : List Str} {n x : Str} :
    x ∈ deleteFile fs n ↔ x ∈ fs ∧ x ≠ n := by
  simp [deleteFile]

theorem writeFile_of_notMem {fs : List Str} {n : Str} (h : n ∉ fs) :
    writeFile fs n = fs ++ [n] := by
  simp [writeFile, h]

/-- Complete description of the per-revision loop: the pages written are
exactly those of the revisions whose fetch-and-render succeeds, in order;
each failure adds one warning; the directory accumulates the slug files of
the successful revisions. -/
theorem foldl_revStep_spec (env : Env) (versions : List Rev) (acc : RevLoopOut) :
    versions.foldl (revStep env) acc =
      ⟨(versions.filter (revOk env)).foldl (fun f v => writeFile f (slugFilename v.date)) acc.fs,
       acc.pages ++ (versions.filter (revOk env)).map
         (fun v => ⟨slugFilename v.date, displayDate v.date⟩),
       acc.warnings + (versions.filter (fun v => !revOk env v)).length⟩ := by
  induction versions generalizing acc with
  | nil => simp
  | cons v vs ih =>
    by_cases hok : revOk env v = true
    · have hstep : revStep env acc v =
          ⟨writeFile acc.fs (slugFilename v.date),
            acc.pages ++ [⟨slugFilename v.date, displayDate v.date⟩], acc.warnings⟩ := by
        rcases hf : env.fetch v.hash with e | content
        · simp [revOk, hf] at hok
        · rcases hc : env.convert content with e | u
          · simp [revOk, hf, hc] at hok
          · simp [revStep, hf, hc]
      rw [List.foldl_cons, hstep, ih]
      simp [List.filter_cons, hok]
    · have hstep : revStep env acc v = ⟨acc.fs, acc.pages, acc.warnings + 1⟩ := by
        rcases hf : env.fetch v.hash with e | content
        · simp [revStep, hf]
        · rcases hc : env.convert content with e | u
          · simp [revStep, hf, hc]
          · simp [revOk, hf, hc] at hok
      rw [List.foldl_cons, hstep, ih]
      simp only [List.filter_cons]
      rw [if_neg (by simpa using hok)]
      have : (!revOk env v) = true := by simpa using hok
      simp only [this, if_pos]
      refine congrArg _ ?_
      simp [List.length_cons]
      omega

theorem processRevisions_spec (env : Env) (fs : List Str) (versions : List Rev) :
    processRevisions env fs versions =
      ⟨(versions.filter (revOk env)).foldl (fun f v => writeFile f (slugFilename v.date)) fs,
       (versions.filter (revOk env)).map (fun v => ⟨slugFilename v.date, displayDate v.date⟩),
       (versions.filter (fun v => !revOk env v)).length⟩ := by
  have h := foldl_revStep_spec env versions ⟨fs, [], 0⟩
  simpa [processRevisions] using h

/-- Membership in the directory left by a fold of slug-file writes. -/
theorem mem_foldl_writeFile {g : Rev → Str} {vs : List Rev} {fs : List Str} {x : Str} :
    x ∈ vs.foldl (fun f v => writeFile f (g v)) fs ↔ x ∈ fs ∨ ∃ v ∈ vs, x = g v := by
  induction vs generalizing fs with
  | nil => simp
  | cons v vs ih =>
    rw [List.foldl_cons, ih]
    rw [mem_writeFile]
    constructor
    · rintro ((hx | rfl) | ⟨w, hw, rfl⟩)
      · exact Or.inl hx
      · exact Or.inr ⟨v, by simp⟩
      · exact Or.inr ⟨w, by simp [hw]⟩
    · rintro (hx | ⟨w, hw, rfl⟩)
      · exact Or.inl (Or.inl hx)
      · rcases List.mem_cons.1 hw with rfl | hw'
        · exact Or.inl (Or.inr rfl)
        · exact Or.inr ⟨w, hw', rfl⟩

/-- When the written names are pairwise distinct and all fresh, the fold of
writes is a plain append. -/
theorem foldl_writeFile_eq_append {g : Rev → Str} {vs : List Rev} {fs : List Str}
    (hnd : (vs.map g).Nodup) (hfresh : ∀ v ∈ vs, g v ∉ fs) :
    vs.foldl (fun f v => writeFile f (g v)) fs = fs ++ vs.map g := by
  induction vs generalizing fs with
  | nil => simp
  | cons v vs ih =>
    rw [List.map_cons, List.nodup_cons] at hnd
    rw [List.foldl_cons, writeFile_of_notMem (hfresh v (by simp))]
    rw [ih hnd.2]
    · simp
    · intro w hw
      rw [List.mem_append]
      rintro (h | h)
      · exact hfresh w (by simp [hw]) h
      · rw [List.mem_singleton] at h
        exact hnd.1 (h ▸ List.mem_map_of_mem g hw)

/-- The exception propagated out of `build_article` is exactly the pandoc
failure on the latest page; per-revision failures never propagate. -/
theorem buildArticle_err (env : Env) (isCollection : Bool) (navInfo : Option NavInfo)
    (versions : List Rev) (fs0 : List Str) :
    (buildArticle env isCollection navInfo versions fs0).err =
      (match env.convert env.working with
       | Except.ok _ => none
       | Except.error e => some e) := by
  unfold buildArticle
  rcases versions with - | ⟨v, vs⟩ <;>
    rcases hc : env.convert env.working with e | u <;> simp [hc]

/-- The pages rendered by `build_article`: one page per revision whose
fetch-and-render succeeded (in history order), then the latest page when its
conversion succeeded. -/
theorem buildArticle_pages (env : Env) (isCollection : Bool) (navInfo : Option NavInfo)
    (versions : List Rev) (fs0 : List Str) :
    (buildArticle env isCollection navInfo versions fs0).pages =
      (versions.filter (revOk env)).map
        (fun v => ⟨slugFilename v.date, displayDate v.date⟩) ++
      (match env.convert env.working with
       | Except.ok _ => [⟨latestName, latestDate env versions⟩]
       | Except.error _ => []) := by
  unfold buildArticle
  rcases versions with - | ⟨v, vs⟩ <;>
    rcases hc : env.convert env.working with e | u <;>
      simp [hc, processRevisions_spec, latestDate]

/-- The warnings printed by `build_article`: one per failed revision. -/
theorem buildArticle_warnings (env : Env) (isCollection : Bool) (navInfo : Option NavInfo)
    (versions : List Rev) (fs0 : List Str) :
    (buildArticle env isCollection navInfo versions fs0).warnings =
      (versions.filter (fun v => !revOk env v)).length := by
  unfold buildArticle
  rcases versions with - | ⟨v, vs⟩ <;>
    rcases hc : env.convert env.working with e | u <;>
      simp [hc, processRevisions_spec]

/-! ### Slug facts derived from the timestamp shape -/
theorem slug_of_shape {ts : Str} (h : TsShape ts) :
    ∃ c rest, slugFilename ts = c :: rest ∧ c.isDigit = true := by
  obtain ⟨y1, y2, y3, y4, o1, o2, d1, d2, h1, h2, n1, n2, s1, s2, z1, z2, z3, z4, hd, hts⟩ := h
  have hv := version_timestamp_of_shape y1 y2 y3 y4 o1 o2 d1 d2 h1 h2 n1 n2 s1 s2 z1 z2 z3 z4 hd
  refine ⟨y1, [y2, y3, y4, '-', o1, o2, '-', d1, d2, 'T', h1, h2, ':', n1, n2] ++ lit ".html",
    ?_, ?_⟩
  · rw [slugFilename, hts, hv]
    rfl
  · simp only [List.all_cons, Bool.and_eq_true] at hd
    exact hd.1

theorem slug_ne_name {ts : Str} (hsh : TsShape ts) (nm : Str)
    (hnm : ∀ d ∈ nm.head?, d.isDigit = false) : slugFilename ts ≠ nm := by
  obtain ⟨c, rest, he, hc⟩ := slug_of_shape hsh
  rw [he]
  intro h'
  rcases nm with - | ⟨d, dr⟩
  · exact List.cons_ne_nil c rest h'
  · injection h' with h1 h2
    have hd := hnm d (by simp)
    rw [← h1, hc] at hd
    exact absurd hd (by simp)

theorem slug_ne_reserved {ts : Str} (h : TsShape ts) :
    slugFilename ts ≠ latestName ∧ slugFilename ts ≠ indexName ∧
    slugFilename ts ≠ navTopName ∧ slugFilename ts ≠ navBottomName :=
  ⟨slug_ne_name h latestName (by decide), slug_ne_name h indexName (by decide),
   slug_ne_name h navTopName (by decide), slug_ne_name h navBottomName (by decide)⟩

/-! ### Directory bookkeeping -/

theorem deleteFile_of_notMem {fs : List Str} {n : Str} (h : n ∉ fs) :
    deleteFile fs n = fs := by
  rw [deleteFile, List.filter_eq_self]
  intro a ha
  simp only [ne_eq, decide_eq_true_eq]
  rintro rfl
  exact h ha

theorem deleteFile_cons_self {n : Str} {Y : List Str} :
    deleteFile (n :: Y) n = deleteFile Y n := by
  simp [deleteFile]

theorem deleteFile_cons_ne {m n : Str} {Y : List Str} (h : m ≠ n) :
    deleteFile (m :: Y) n = m :: deleteFile Y n := by
  simp [deleteFile, h]

/-- On a run whose latest-page conversion succeeds, `build_article` performs:
nav-file creation, the revision loop, the latest-page write, the nav-file
cleanup, and the version-index write, in that order.  (When `versions` is
empty the loop is a no-op, so the same composition describes both branches of
the source's `if not versions`.) -/
theorem buildArticle_fs_ok (env : Env) (isC : Bool) (nav : Option NavInfo)
    (versions : List Rev) (fs0 : List Str)
    (hw : env.convert env.working = Except.ok ()) :
    (buildArticle env isC nav versions fs0).fs =
      writeFile
        (if nav.isSome || !isC then
          deleteFile
            (if nav.isSome then
              deleteFile
                (writeFile (processRevisions env
                  (if nav.isSome || !isC then
                    writeFile (if nav.isSome then writeFile fs0 navTopName else fs0)
                      navBottomName
                  else (if nav.isSome then writeFile fs0 navTopName else fs0))
                  versions).fs latestName)
                navTopName
            else
              writeFile (processRevisions env
                  (if nav.isSome || !isC then
                    writeFile (if nav.isSome then writeFile fs0 navTopName else fs0)
                      navBottomName
                  else (if nav.isSome then writeFile fs0 navTopName else fs0))
                  versions).fs latestName)
            navBottomName
        else
          (if nav.isSome then
            deleteFile
              (writeFile (processRevisions env
                (if nav.isSome || !isC then
                  writeFile (if nav.isSome then writeFile fs0 navTopName else fs0)
                    navBottomName
                else (if nav.isSome then writeFile fs0 navTopName else fs0))
                versions).fs latestName)
              navTopName
          else
            writeFile (processRevisions env
                (if nav.isSome || !isC then
                  writeFile (if nav.isSome then writeFile fs0 navTopName else fs0)
                    navBottomName
                else (if nav.isSome then writeFile fs0 navTopName else fs0))
                versions).fs latestName))
        indexName := by
  rcases versions with - | ⟨v0, vs0⟩ <;> simp [buildArticle, hw, processRevisions]

/-- On a directory that never contained the slug names, the successful run
leaves exactly the slug files in history order, the latest page and the
version index. -/
theorem buildArticle_fs_success (env : Env) (isC : Bool) (nav : Option NavInfo)
    (versions : List Rev)
    (hok : ∀ v ∈ versions, revOk env v = true)
    (hw : env.convert env.working = Except.ok ())
    (hshape : ∀ v ∈ versions, TsShape v.date)
    (hnodup : (versions.map fun v => slugFilename v.date).Nodup) :
    (buildArticle env isC nav versions []).fs
      = (versions.map fun v => slugFilename v.date) ++ [latestName, indexName] := by
  have hne : ∀ v ∈ versions, slugFilename v.date ≠ latestName ∧ slugFilename v.date ≠ indexName ∧
      slugFilename v.date ≠ navTopName ∧ slugFilename v.date ≠ navBottomName :=
    fun v hv => slug_ne_reserved (hshape v hv)
  have hfilter : versions.filter (revOk env) = versions :=
    List.filter_eq_self.mpr fun a ha => hok a ha
  have hmapne : ∀ n : Str, n ∈ (versions.map fun v => slugFilename v.date) →
      n ≠ latestName ∧ n ≠ indexName ∧ n ≠ navTopName ∧ n ≠ navBottomName := by
    intro n hn
    obtain ⟨v, hv, rfl⟩ := List.mem_map.1 hn
    exact hne v hv
  have hbody : ∀ fs2 : List Str, (∀ v ∈ versions, slugFilename v.date ∉ fs2) →
      latestName ∉ fs2 →
      writeFile (processRevisions env fs2 versions).fs latestName
        = fs2 ++ ((versions.map fun v => slugFilename v.date) ++ [latestName]) := by
    intro fs2 hf hl
    rw [processRevisions_spec]
    simp only [hfilter]
    rw [foldl_writeFile_eq_append hnodup hf, writeFile_of_notMem, List.append_assoc]
    intro hmem
    rcases List.mem_append.1 hmem with hmem | hmem
    · exact hl hmem
    · exact (hmapne latestName hmem).1 rfl
  have hdelT : deleteFile ((versions.map fun v => slugFilename v.date) ++ [latestName])
      navTopName = (versions.map fun v => slugFilename v.date) ++ [latestName] := by
    apply deleteFile_of_notMem
    intro hmem
    rcases List.mem_append.1 hmem with hmem | hmem
    · exact (hmapne navTopName hmem).2.2.1 rfl
    · simp only [List.mem_singleton] at hmem
      exact absurd hmem (by decide)
  have hdelB : deleteFile ((versions.map fun v => slugFilename v.date) ++ [latestName])
      navBottomName = (versions.map fun v => slugFilename v.date) ++ [latestName] := by
    apply deleteFile_of_notMem
    intro hmem
    rcases List.mem_append.1 hmem with hmem | hmem
    · exact (hmapne navBottomName hmem).2.2.2 rfl
    · simp only [List.mem_singleton] at hmem
      exact absurd hmem (by decide)
  have hidx : writeFile ((versions.map fun v => slugFilename v.date) ++ [latestName]) indexName
      = (versions.map fun v => slugFilename v.date) ++ [latestName, indexName] := by
    rw [writeFile_of_notMem]
    · simp
    · intro hmem
      rcases List.mem_append.1 hmem with hmem | hmem
      · exact (hmapne indexName hmem).2.1 rfl
      · simp only [List.mem_singleton] at hmem
        exact absurd hmem (by decide)
  rw [buildArticle_fs_ok env isC nav versions [] hw]
  rcases nav with - | info
  · cases isC
    · -- regular post: only `.nav-bottom.html` is created, then deleted
      simp only [Option.isSome_none, Bool.not_false, Bool.false_or, Bool.false_eq_true,
        if_false, if_true]
      have e1 : writeFile ([] : List Str) navBottomName = [navBottomName] := by decide
      rw [e1]
      rw [hbody [navBottomName]
        (by intro v hv; simp only [List.mem_singleton]; exact (hne v hv).2.2.2)
        (by decide)]
      simp only [List.cons_append, List.nil_append]
      rw [deleteFile_cons_self, hdelB, hidx]
    · -- collection member built without nav info: no nav files at all
      simp only [Option.isSome_none, Bool.not_true, Bool.or_false, Bool.false_eq_true,
        if_false]
      rw [hbody [] (by intro v hv; simp) (by simp)]
      simp only [List.nil_append]
      rw [hidx]
  · -- collection member with navigation: both nav files created, then deleted
    simp only [Option.isSome_some, Bool.true_or, if_true]
    have e2 : writeFile (writeFile ([] : List Str) navTopName) navBottomName
        = [navTopName, navBottomName] := by decide
    rw [e2]
    rw [hbody [navTopName, navBottomName]
      (by
        intro v hv
        simp only [List.mem_cons, List.mem_singleton, List.not_mem_nil]
        rintro (h | h | h)
        · exact (hne v hv).2.2.1 h
        · exact (hne v hv).2.2.2 h
        · exact h)
      (by decide)]
    simp only [List.cons_append, List.nil_append]
    rw [deleteFile_cons_self, deleteFile_cons_ne (by decide), hdelT,
      deleteFile_cons_self, hdelB, hidx]
/-- The `try` body only adds slug-named files to the directory. -/
theorem mem_processRevisions_fs {env : Env} {fs : List Str} {versions : List Rev} {x : Str}
    (hx : x ∈ (processRevisions env fs versions).fs) :
    x ∈ fs ∨ ∃ v ∈ versions, x = slugFilename v.date := by
  rw [processRevisions_spec] at hx
  rcases mem_foldl_writeFile.1 hx with h | ⟨v, hv, rfl⟩
  · exact Or.inl h
  · exact Or.inr ⟨v, (List.mem_filter.1 hv).1, rfl⟩

/-- `build_article` in the aborting case (the latest-page conversion raises):
nav creation, revision loop, nav cleanup; no latest page, no version index. -/
theorem buildArticle_fs_err (env : Env) (isC : Bool) (nav : Option NavInfo)
    (versions : List Rev) (fs0 : List Str) (e : Str)
    (hw : env.convert env.working = Except.error e) :
    (buildArticle env isC nav versions fs0).fs =
      (if nav.isSome || !isC then
        deleteFile
          (if nav.isSome then
            deleteFile
              (processRevisions env
                (if nav.isSome || !isC then
                  writeFile (if nav.isSome then writeFile fs0 navTopName else fs0)
                    navBottomName
                else (if nav.isSome then writeFile fs0 navTopName else fs0))
                versions).fs
              navTopName
          else
            (processRevisions env
                (if nav.isSome || !isC then
                  writeFile (if nav.isSome then writeFile fs0 navTopName else fs0)
                    navBottomName
                else (if nav.isSome then writeFile fs0 navTopName else fs0))
                versions).fs)
          navBottomName
      else
        (if nav.isSome then
          deleteFile
            (processRevisions env
              (if nav.isSome || !isC then
                writeFile (if nav.isSome then writeFile fs0 navTopName else fs0)
                  navBottomName
              else (if nav.isSome then writeFile fs0 navTopName else fs0))
              versions).fs
            navTopName
        else
          (processRevisions env
              (if nav.isSome || !isC then
                writeFile (if nav.isSome then writeFile fs0 navTopName else fs0)
                  navBottomName
              else (if nav.isSome then writeFile fs0 navTopName else fs0))
              versions).fs)) := by
  rcases versions with - | ⟨v0, vs0⟩ <;> simp [buildArticle, hw, processRevisions]

/-- C1, amended.  For a document with `N` revisions whose truncated slugs are
pairwise distinct, a successful Article Builder run produces exactly `N + 1`
article pages (one slug file per revision, none skipped, plus the latest
page) and exactly one version-index page: the output directory holds exactly
`N + 2` files.  (When two revisions truncate to the same slug the later one
silently overwrites the earlier file and the count drops, see the
counterexample.) -/
theorem article_output_pages_count (env : Env) (isCollection : Bool)
    (navInfo : Option NavInfo) (versions : List Rev)
    (hok : ∀ v ∈ versions, revOk env v = true)
    (hw : env.convert env.working = Except.ok ())
    (hshape : ∀ v ∈ versions, TsShape v.date)
    (hnodup : (versions.map fun v => slugFilename v.date).Nodup) :
    (buildArticle env isCollection navInfo versions []).err = none ∧
    (buildArticle env isCollection navInfo versions []).fs
      = (versions.map fun v => slugFilename v.date) ++ [latestName, indexName] ∧
    (buildArticle env isCollection navInfo versions []).fs.length
      = versions.length + 2 := by
  refine ⟨?_, buildArticle_fs_success env isCollection navInfo versions hok hw hshape hnodup, ?_⟩
  · rw [buildArticle_err, hw]
  · rw [buildArticle_fs_success env isCollection navInfo versions hok hw hshape hnodup]
    simp

/-- Witness for the amended C1 at a concrete input: two revisions in
different minutes, a fully successful environment, `2 + 2` output files. -/
theorem article_output_pages_count_witness :
    (buildArticle
        (⟨fun _ => Except.ok (lit ""), fun _ => Except.ok (), lit "", lit "2025-02-02"⟩ : Env)
        false none
        [⟨lit "h1", lit "2025-01-01 10:00:00 +0800"⟩,
         ⟨lit "h2", lit "2025-01-02 11:30:00 +0800"⟩] []).fs.length = 2 + 2 := by
  have h := article_output_pages_count
    (⟨fun _ => Except.ok (lit ""), fun _ => Except.ok (), lit "", lit "2025-02-02"⟩ : Env)
    false none
    [⟨lit "h1", lit "2025-01-01 10:00:00 +0800"⟩,
     ⟨lit "h2", lit "2025-01-02 11:30:00 +0800"⟩]
    (by decide) rfl
    (by
      intro v hv
      rcases List.mem_cons.1 hv with rfl | hv
      · exact ⟨'2', '0', '2', '5', '0', '1', '0', '1', '1', '0', '0', '0', '0', '0',
          '0', '8', '0', '0', by decide, rfl⟩
      rcases List.mem_cons.1 hv with rfl | hv
      · exact ⟨'2', '0', '2', '5', '0', '1', '0', '2', '1', '1', '3', '0', '0', '0',
          '0', '8', '0', '0', by decide, rfl⟩
      · exact absurd hv (List.not_mem_nil v))
    (by decide)
  exact h.2.2

/-- C1, counterexample to the claim as stated: two revisions in the same
minute truncate to the same slug, the run succeeds, yet only `3` files are
produced instead of `N + 2 = 4`: the second revision silently overwrote the
first one's output file. -/
theorem article_output_pages_count_counterexample :
    (buildArticle
        (⟨fun _ => Except.ok (lit ""), fun _ => Except.ok (), lit "", lit "2025-02-02"⟩ : Env)
        false none
        [⟨lit "h1", lit "2025-01-01 10:00:00 +0800"⟩,
         ⟨lit "h2", lit "2025-01-01 10:00:30 +0800"⟩] []).err = none ∧
    ¬ ((buildArticle
        (⟨fun _ => Except.ok (lit ""), fun _ => Except.ok (), lit "", lit "2025-02-02"⟩ : Env)
        false none
        [⟨lit "h1", lit "2025-01-01 10:00:00 +0800"⟩,
         ⟨lit "h2", lit "2025-01-01 10:00:30 +0800"⟩] []).fs.length = 2 + 2) := by
  constructor
  · decide
  · decide

/-- C3: the `latest.html` page's displayed date is the calendar-date portion
of the newest revision's timestamp when the document has revisions, and the
current build date otherwise. -/
theorem latest_page_display_date (env : Env) (isCollection : Bool)
    (navInfo : Option NavInfo) (versions : List Rev) (fs0 : List Str)
    (hw : env.convert env.working = Except.ok ())
    (hshape : ∀ v ∈ versions, TsShape v.date) :
    ((buildArticle env isCollection navInfo versions fs0).pages.filter
        fun p => p.name = latestName)
      = [⟨latestName, latestDate env versions⟩] ∧
    (versions = [] → latestDate env versions = env.now) ∧
    ∀ v, versions.getLast? = some v → latestDate env versions = displayDate v.date := by
  refine ⟨?_, ?_, ?_⟩
  · rw [buildArticle_pages, hw]
    rw [List.filter_append]
    have h1 : ((versions.filter (revOk env)).map
        (fun v => (⟨slugFilename v.date, displayDate v.date⟩ : Page))).filter
          (fun p => p.name = latestName) = [] := by
      rw [List.filter_eq_nil_iff]
      intro p hp
      obtain ⟨v, hv, rfl⟩ := List.mem_map.1 hp
      simp only [decide_eq_true_eq]
      exact (slug_ne_reserved (hshape v (List.mem_filter.1 hv).1)).1
    rw [h1]
    simp
  · rintro rfl
    rfl
  · intro v hv
    simp [latestDate, hv]

/-- Witness for C3 at a concrete input: two revisions, the newest dated
`2025-01-02`, and that is the latest page's displayed date. -/
theorem latest_page_display_date_witness :
    ((buildArticle
        (⟨fun _ => Except.ok (lit ""), fun _ => Except.ok (), lit "", lit "2025-03-03"⟩ : Env)
        false none
        [⟨lit "h1", lit "2025-01-01 10:00:00 +0800"⟩,
         ⟨lit "h2", lit "2025-01-02 11:30:00 +0800"⟩] []).pages.filter
      fun p => p.name = latestName)
    = [⟨latestName, lit "2025-01-02"⟩] := by
  have h := latest_page_display_date
    (⟨fun _ => Except.ok (lit ""), fun _ => Except.ok (), lit "", lit "2025-03-03"⟩ : Env)
    false none
    [⟨lit "h1", lit "2025-01-01 10:00:00 +0800"⟩,
     ⟨lit "h2", lit "2025-01-02 11:30:00 +0800"⟩] [] rfl
    (by
      intro v hv
      rcases List.mem_cons.1 hv with rfl | hv
      · exact ⟨'2', '0', '2', '5', '0', '1', '0', '1', '1', '0', '0', '0', '0', '0',
          '0', '8', '0', '0', by decide, rfl⟩
      rcases List.mem_cons.1 hv with rfl | hv
      · exact ⟨'2', '0', '2', '5', '0', '1', '0', '2', '1', '1', '3', '0', '0', '0',
          '0', '8', '0', '0', by decide, rfl⟩
      · exact absurd hv (List.not_mem_nil v))
  rw [h.1]
  decide

/-- C6: a failure fetching or rendering a single historical revision is
caught and counted as a warning, the revision is skipped and the loop
continues (every succeeding revision still gets its page); a conversion
failure on the latest page is exactly what propagates out of
`build_article`. -/
theorem revision_failure_handling (env : Env) (isCollection : Bool)
    (navInfo : Option NavInfo) (versions : List Rev) (fs0 : List Str) :
    (buildArticle env isCollection navInfo versions fs0).err
        = (match env.convert env.working with
           | Except.ok _ => none
           | Except.error e => some e) ∧
    (buildArticle env isCollection navInfo versions fs0).warnings
        = (versions.filter fun v => !revOk env v).length ∧
    (buildArticle env isCollection navInfo versions fs0).pages
        = (versions.filter (revOk env)).map
            (fun v => ⟨slugFilename v.date, displayDate v.date⟩) ++
          (match env.convert env.working with
           | Except.ok _ => [⟨latestName, latestDate env versions⟩]
           | Except.error _ => []) :=
  ⟨buildArticle_err env isCollection navInfo versions fs0,
   buildArticle_warnings env isCollection navInfo versions fs0,
   buildArticle_pages env isCollection navInfo versions fs0⟩

/-- C8: whether the run completes or aborts, neither temporary navigation
fragment file remains in the output directory afterwards. -/
theorem nav_files_cleaned_up (env : Env) (isC : Bool) (nav : Option NavInfo)
    (versions : List Rev) (fs0 : List Str)
    (h0 : navTopName ∉ fs0) (h1 : navBottomName ∉ fs0)
    (hshape : ∀ v ∈ versions, TsShape v.date) :
    navTopName ∉ (buildArticle env isC nav versions fs0).fs ∧
    navBottomName ∉ (buildArticle env isC nav versions fs0).fs := by
  have hslugT : ∀ v ∈ versions, slugFilename v.date ≠ navTopName :=
    fun v hv => (slug_ne_reserved (hshape v hv)).2.2.1
  have hslugB : ∀ v ∈ versions, slugFilename v.date ≠ navBottomName :=
    fun v hv => (slug_ne_reserved (hshape v hv)).2.2.2
  have htrackT : ∀ fs2 : List Str, navTopName ∉ fs2 →
      navTopName ∉ writeFile (processRevisions env fs2 versions).fs latestName := by
    intro fs2 hf hx
    rcases mem_writeFile.1 hx with hx | hx
    · rcases mem_processRevisions_fs hx with hx | ⟨v, hv, hx⟩
      · exact hf hx
      · exact hslugT v hv hx.symm
    · exact absurd hx (by decide)
  have htrackB : ∀ fs2 : List Str, navBottomName ∉ fs2 →
      navBottomName ∉ writeFile (processRevisions env fs2 versions).fs latestName := by
    intro fs2 hf hx
    rcases mem_writeFile.1 hx with hx | hx
    · rcases mem_processRevisions_fs hx with hx | ⟨v, hv, hx⟩
      · exact hf hx
      · exact hslugB v hv hx.symm
    · exact absurd hx (by decide)
  have htrackT' : ∀ fs2 : List Str, navTopName ∉ fs2 →
      navTopName ∉ (processRevisions env fs2 versions).fs := by
    intro fs2 hf hx
    rcases mem_processRevisions_fs hx with hx | ⟨v, hv, hx⟩
    · exact hf hx
    · exact hslugT v hv hx.symm
  have htrackB' : ∀ fs2 : List Str, navBottomName ∉ fs2 →
      navBottomName ∉ (processRevisions env fs2 versions).fs := by
    intro fs2 hf hx
    rcases mem_processRevisions_fs hx with hx | ⟨v, hv, hx⟩
    · exact hf hx
    · exact hslugB v hv hx.symm
  rcases hc : env.convert env.working with e | u
  · -- latest-page conversion raised: exception propagates, nav files already removed
    rw [buildArticle_fs_err env isC nav versions fs0 e hc]
    rcases nav with - | info
    · cases isC
      · simp only [Option.isSome_none, Bool.not_false, Bool.false_or, Bool.false_eq_true,
          if_false, if_true]
        constructor
        · intro hx
          exact htrackT' (writeFile fs0 navBottomName)
            (by
              intro hmem
              rcases mem_writeFile.1 hmem with hmem | hmem
              · exact h0 hmem
              · exact absurd hmem (by decide))
            (mem_deleteFile.1 hx).1
        · intro hx
          exact (mem_deleteFile.1 hx).2 rfl
      · simp only [Option.isSome_none, Bool.not_true, Bool.or_false, Bool.false_eq_true,
          if_false]
        exact ⟨htrackT' fs0 h0, htrackB' fs0 h1⟩
    · simp only [Option.isSome_some, Bool.true_or, if_true]
      constructor
      · intro hx
        exact (mem_deleteFile.1 (mem_deleteFile.1 hx).1).2 rfl
      · intro hx
        exact (mem_deleteFile.1 hx).2 rfl
  · -- run completed: nav files removed before the version index is written
    cases u
    rw [buildArticle_fs_ok env isC nav versions fs0 hc]
    rcases nav with - | info
    · cases isC
      · simp only [Option.isSome_none, Bool.not_false, Bool.false_or, Bool.false_eq_true,
          if_false, if_true]
        constructor
        · intro hx
          rcases mem_writeFile.1 hx with hx | hx
          · exact htrackT (writeFile fs0 navBottomName)
              (by
                intro hmem
                rcases mem_writeFile.1 hmem with hmem | hmem
                · exact h0 hmem
                · exact absurd hmem (by decide))
              (mem_deleteFile.1 hx).1
          · exact absurd hx (by decide)
        · intro hx
          rcases mem_writeFile.1 hx with hx | hx
          · exact (mem_deleteFile.1 hx).2 rfl
          · exact absurd hx (by decide)
      · simp only [Option.isSome_none, Bool.not_true, Bool.or_false, Bool.false_eq_true,
          if_false]
        constructor
        · intro hx
          rcases mem_writeFile.1 hx with hx | hx
          · exact htrackT fs0 h0 hx
          · exact absurd hx (by decide)
        · intro hx
          rcases mem_writeFile.1 hx with hx | hx
          · exact htrackB fs0 h1 hx
          · exact absurd hx (by decide)
    · simp only [Option.isSome_some, Bool.true_or, if_true]
      constructor
      · intro hx
        rcases mem_writeFile.1 hx with hx | hx
        · exact (mem_deleteFile.1 (mem_deleteFile.1 hx).1).2 rfl
        · exact absurd hx (by decide)
      · intro hx
        rcases mem_writeFile.1 hx with hx | hx
        · exact (mem_deleteFile.1 hx).2 rfl
        · exact absurd hx (by decide)

/-- Witness for C8 at a concrete input: a collection article with one
revision whose conversion fails on the latest page; neither nav file
remains. -/
theorem nav_files_cleaned_up_witness :
    navTopName ∉ (buildArticle
        (⟨fun _ => Except.ok (lit ""), fun _ => Except.error (lit "pandoc failed"),
          lit "", lit "2025-02-02"⟩ : Env)
        true (some ⟨lit "series", none, some (lit "part-2")⟩)
        [⟨lit "h1", lit "2025-01-01 10:00:00 +0800"⟩] []).fs ∧
    navBottomName ∉ (buildArticle
        (⟨fun _ => Except.ok (lit ""), fun _ => Except.error (lit "pandoc failed"),
          lit "", lit "2025-02-02"⟩ : Env)
        true (some ⟨lit "series", none, some (lit "part-2")⟩)
        [⟨lit "h1", lit "2025-01-01 10:00:00 +0800"⟩] []).fs :=
  nav_files_cleaned_up
    (⟨fun _ => Except.ok (lit ""), fun _ => Except.error (lit "pandoc failed"),
      lit "", lit "2025-02-02"⟩ : Env)
    true (some ⟨lit "series", none, some (lit "part-2")⟩)
    [⟨lit "h1", lit "2025-01-01 10:00:00 +0800"⟩] []
    (by decide) (by decide)
    (by
      intro v hv
      rcases List.mem_cons.1 hv with rfl | hv
      · exact ⟨'2', '0', '2', '5', '0', '1', '0', '1', '1', '0', '0', '0', '0', '0',
          '0', '8', '0', '0', by decide, rfl⟩
      · exact absurd hv (List.not_mem_nil v))

/-- C2: on any commit timestamp of the shape `YYYY-MM-DD HH:MM:SS +ZZZZ`
the slug is the timestamp truncated to minute precision with the space turned
into `T`, the timezone offset dropped and the seconds dropped, and the output
file name is that slug plus `.html`. -/
theorem slug_transform (y1 y2 y3 y4 o1 o2 d1 d2 h1 h2 n1 n2 s1 s2 z1 z2 z3 z4 : Char)
    (hd : ([y1, y2, y3, y4, o1, o2, d1, d2, h1, h2, n1, n2, s1, s2,
      z1, z2, z3, z4].all Char.isDigit) = true) :
    version_timestamp ([y1, y2, y3, y4, '-', o1, o2, '-', d1, d2, ' ',
        h1, h2, ':', n1, n2, ':', s1, s2, ' ', '+', z1, z2, z3, z4] : List Char)
      = ([y1, y2, y3, y4, '-', o1, o2, '-', d1, d2, 'T', h1, h2, ':', n1, n2] : List Char) ∧
    slugFilename ([y1, y2, y3, y4, '-', o1, o2, '-', d1, d2, ' ',
        h1, h2, ':', n1, n2, ':', s1, s2, ' ', '+', z1, z2, z3, z4] : List Char)
      = ([y1, y2, y3, y4, '-', o1, o2, '-', d1, d2, 'T', h1, h2, ':', n1, n2] : List Char)
          ++ lit ".html" := by
  have h := version_timestamp_of_shape y1 y2 y3 y4 o1 o2 d1 d2 h1 h2 n1 n2 s1 s2
    z1 z2 z3 z4 hd
  exact ⟨h, by rw [slugFilename, h]⟩

/-- Witness for C2 at the spec's example: `2025-01-01 10:00:00 +0800` yields
the file name `2025-01-01T10:00.html`. -/
theorem slug_transform_witness :
    slugFilename (lit "2025-01-01 10:00:00 +0800") = lit "2025-01-01T10:00.html" := by
  have h := (slug_transform '2' '0' '2' '5' '0' '1' '0' '1' '1' '0' '0' '0' '0' '0'
    '0' '8' '0' '0' (by decide)).2
  exact h

/-- C4: the version-index history listing holds exactly the `.html` files of
the directory other than `index.html` and `latest.html`, in descending
lexicographic filename order (newest slug first). -/
theorem version_index_listing_spec (files : List Str) :
    (version_index_listing files).Perm
      (files.filter fun f => (lit ".html").isSuffixOf f && f ≠ indexName && f ≠ latestName) ∧
    List.Pairwise (fun a b : Str => b ≤ a) (version_index_listing files) ∧
    ∀ f : Str, f ∈ version_index_listing files ↔
      f ∈ files ∧ (lit ".html").isSuffixOf f = true ∧ f ≠ indexName ∧ f ≠ latestName := by
  have hperm : (version_index_listing files).Perm
      (files.filter fun f => (lit ".html").isSuffixOf f && f ≠ indexName && f ≠ latestName) :=
    (List.reverse_perm _).trans (List.mergeSort_perm _ _)
  refine ⟨hperm, ?_, ?_⟩
  · unfold version_index_listing
    rw [List.pairwise_reverse]
    exact List.sorted_mergeSort'
      (files.filter fun f => (lit ".html").isSuffixOf f && f ≠ indexName && f ≠ latestName)
  · intro f
    rw [hperm.mem_iff, List.mem_filter]
    simp [Bool.and_eq_true, and_assoc]

/-- C7: the history resolver is total; an untracked file yields an empty
list silently, any raised version-control failure is caught and yields a
warning and an empty list, and on success the newest-first `git log` output
is reversed, so the result is ordered oldest-first. -/
theorem git_history_resolution (genv : GitEnv) :
    (∀ e, genv.lsFiles = Except.error e → get_git_history genv = ([], true)) ∧
    (∀ rc, genv.lsFiles = Except.ok rc → rc ≠ 0 → get_git_history genv = ([], false)) ∧
    (∀ e, genv.lsFiles = Except.ok 0 → genv.log = Except.error e →
      get_git_history genv = ([], true)) ∧
    (∀ raw, genv.lsFiles = Except.ok 0 → genv.log = Except.ok raw →
      get_git_history genv = ((parseGitLog raw).reverse, false)) ∧
    (∀ raw, genv.lsFiles = Except.ok 0 → genv.log = Except.ok raw →
      List.Pairwise (fun a b : Rev => b.date ≤ a.date) (parseGitLog raw) →
      List.Pairwise (fun a b : Rev => a.date ≤ b.date) (get_git_history genv).1) := by
  refine ⟨?_, ?_, ?_, ?_, ?_⟩
  · intro e he
    simp [get_git_history, he]
  · intro rc hrc hne
    simp [get_git_history, hrc, hne]
  · intro e h0 he
    simp [get_git_history, h0, he]
  · intro raw h0 hraw
    simp [get_git_history, h0, hraw]
  · intro raw h0 hraw hsorted
    have h : get_git_history genv = ((parseGitLog raw).reverse, false) := by
      simp [get_git_history, h0, hraw]
    rw [h]
    exact List.pairwise_reverse.mpr hsorted

/-- Witness for C7 at a concrete input: a tracked file with a two-commit
newest-first log; the resolver returns the two revisions oldest-first with no
warning. -/
theorem git_history_resolution_witness :
    get_git_history
      ⟨Except.ok 0,
        Except.ok (lit "h2 2025-01-02 11:30:00 +0800\nh1 2025-01-01 10:00:00 +0800")⟩
      = ([⟨lit "h1", lit "2025-01-01 10:00:00 +0800"⟩,
          ⟨lit "h2", lit "2025-01-02 11:30:00 +0800"⟩], false) := by
  have h := (git_history_resolution
    ⟨Except.ok 0,
      Except.ok (lit "h2 2025-01-02 11:30:00 +0800\nh1 2025-01-01 10:00:00 +0800")⟩).2.2.2.1
    (lit "h2 2025-01-02 11:30:00 +0800\nh1 2025-01-01 10:00:00 +0800") rfl rfl
  rw [h]
  decide

/-- C9: the computed output directory always ends in the article-name
component; a source file living alone (its containing directory is not named
like the article) and a source file inside an eponymously-named folder map
to the same output directory; and the site-index URL for a standalone post
resolves into that same output directory. -/
theorem output_layout (d D : List Str) (stem cname : Str)
    (hdot : lit "." ∉ d) (hstem : stem ≠ lit ".")
    (hD : parentNameBlogs D ≠ stem) :
    (outputDirBlogs d stem).getLast? = some stem ∧
    (outputDirCollection cname stem).getLast? = some stem ∧
    outputDirBlogs D stem = outputDirBlogs (D ++ [stem]) stem ∧
    resolveDots (mainIndexUrlBlogs d stem)
      = (outputDirBlogs d stem).drop 1 ++ [lit "index.html"] := by
  have hfilter : ∀ l : List Str, lit "." ∉ l → resolveDots l = l := by
    intro l hl
    rw [resolveDots, List.filter_eq_self]
    intro a ha
    simp only [ne_eq, decide_eq_true_eq]
    rintro rfl
    exact hl ha
  have hfd : resolveDots d = d := hfilter d hdot
  refine ⟨?_, ?_, ?_, ?_⟩
  · unfold outputDirBlogs
    by_cases h : parentNameBlogs d = stem
    · rw [if_pos h]
      rcases d with - | ⟨a, as⟩
      · unfold parentNameBlogs at h
        simp only [List.getLast?_nil, Option.getD_none] at h
        simp [← h]
      · rw [List.getLast?_append]
        unfold parentNameBlogs at h
        rcases hlast : (a :: as).getLast? with - | b
        · exact absurd hlast (by simp)
        · rw [hlast] at h
          simp only [Option.getD_some] at h
          simp [h]
    · rw [if_neg h]
      rw [show ([lit "docs", lit "blogs"] ++ d ++ [stem])
          = ([lit "docs", lit "blogs"] ++ d) ++ [stem] by simp]
      exact List.getLast?_concat _
  · rfl
  · unfold outputDirBlogs
    rw [if_neg hD]
    have h2 : parentNameBlogs (D ++ [stem]) = stem := by
      unfold parentNameBlogs
      rw [List.getLast?_concat]
      rfl
    rw [if_pos h2]
    simp
  · unfold mainIndexUrlBlogs outputDirBlogs
    by_cases h : parentNameBlogs d = stem
    · rw [if_pos h, if_pos h]
      rcases d with - | ⟨a, as⟩
      · rw [show pathStrParts ([] : List Str) = [lit "."] from rfl]
        decide
      · rw [show pathStrParts (a :: as) = a :: as from by simp [pathStrParts]]
        rw [hfilter (lit "blogs" :: ((a :: as) ++ [lit "index.html"]))
          (by
            intro hmem
            rcases List.mem_cons.1 hmem with h' | hmem
            · exact absurd h' (by decide)
            rcases List.mem_append.1 hmem with h' | h'
            · exact hdot h'
            · simp only [List.mem_singleton] at h'
              exact absurd h' (by decide))]
        simp
    · rw [if_neg h, if_neg h]
      rcases d with - | ⟨a, as⟩
      · rw [show pathStrParts ([] : List Str) = [lit "."] from rfl]
        simp only [List.singleton_append]
        rw [show resolveDots [lit "blogs", lit ".", stem, lit "index.html"]
            = lit "blogs" :: resolveDots [lit ".", stem, lit "index.html"] from
          List.filter_cons_of_pos (by decide)]
        rw [show resolveDots [lit ".", stem, lit "index.html"]
            = resolveDots [stem, lit "index.html"] from
          List.filter_cons_of_neg (by decide)]
        rw [show resolveDots [stem, lit "index.html"]
            = stem :: resolveDots [lit "index.html"] from
          List.filter_cons_of_pos (by simp [hstem])]
        rw [show resolveDots [lit "index.html"] = [lit "index.html"] from by decide]
        rfl
      · rw [show pathStrParts (a :: as) = a :: as from by simp [pathStrParts]]
        rw [hfilter (lit "blogs" :: ((a :: as) ++ [stem, lit "index.html"]))
          (by
            intro hmem
            rcases List.mem_cons.1 hmem with h' | hmem
            · exact absurd h' (by decide)
            rcases List.mem_append.1 hmem with h' | h'
            · exact hdot h'
            rcases List.mem_cons.1 h' with h2 | h2
            · exact hstem h2.symm
            · simp only [List.mem_singleton] at h2
              exact absurd h2 (by decide))]
        simp

/-- Witness for C9 at a concrete input: article `post` under `blogs/2025`. -/
theorem output_layout_witness :
    outputDirBlogs [lit "2025"] (lit "post")
        = outputDirBlogs ([lit "2025"] ++ [lit "post"]) (lit "post") ∧
    resolveDots (mainIndexUrlBlogs [lit "2025"] (lit "post"))
        = (outputDirBlogs [lit "2025"] (lit "post")).drop 1 ++ [lit "index.html"] := by
  have h := output_layout [lit "2025"] [lit "2025"] (lit "post") (lit "series")
    (by decide) (by decide) (by decide)
  exact ⟨h.2.2.1, h.2.2.2⟩

/-- C10: a collections subdirectory holding no `.tex` file produces no output
at all - no articles and no collection index - yet the site index still lists
it with a link to `collections/<name>/index.html`, a count of `0` articles and
the current build date; that link's target is generated by no collection. -/
theorem empty_collection_dangling_link (senv : SiteEnv) (cols : List ColSrc) (c : ColSrc)
    (hc : c ∈ cols) (hempty : c.files = [])
    (hnames : (cols.map ColSrc.name).Nodup) :
    buildCollectionOutputs senv c = [] ∧
    (⟨c.name, [lit "collections", c.name, lit "index.html"], 0, senv.now⟩ : ColEntry)
      ∈ mainIndexCollectionEntries senv cols ∧
    ([lit "docs", lit "collections", c.name, lit "index.html"] : List Str)
      ∉ buildCollectionsOutputs senv cols := by
  refine ⟨?_, ?_, ?_⟩
  · simp [buildCollectionOutputs, hempty]
  · have h : (fun c : ColSrc =>
        (⟨c.name, [lit "collections", c.name, lit "index.html"], c.files.length,
          collectionLatestDate senv c.files⟩ : ColEntry)) c
        = ⟨c.name, [lit "collections", c.name, lit "index.html"], 0, senv.now⟩ := by
      simp [hempty, collectionLatestDate]
    rw [mainIndexCollectionEntries, ← h]
    exact List.mem_map_of_mem _ hc
  · intro hx
    obtain ⟨c', hc', hx⟩ := List.mem_flatMap.1 hx
    by_cases hf : c'.files = []
    · simp [buildCollectionOutputs, hf] at hx
    · rw [buildCollectionOutputs, if_neg hf] at hx
      rcases List.mem_append.1 hx with hx | hx
      · obtain ⟨iv, hiv, hx⟩ := List.mem_flatMap.1 hx
        obtain ⟨f, hfmem, hx⟩ := List.mem_map.1 hx
        exact absurd (congrArg List.length hx) (by simp)
      · simp only [List.mem_singleton] at hx
        have hnm : c.name = c'.name := by
          have := congrArg (fun l : List Str => l[2]?) hx
          simpa using this
        have : c = c' := List.inj_on_of_nodup_map hnames hc hc' hnm
        rw [← this] at hf
        exact hf hempty

/-- Witness for C10 at a concrete input: collection `empty` with no files
next to collection `full` with one file. -/
theorem empty_collection_dangling_link_witness :
    ([lit "docs", lit "collections", lit "empty", lit "index.html"] : List Str)
      ∉ buildCollectionsOutputs
          ⟨fun _ => [], fun _ => ⟨fun _ => Except.ok (lit ""), fun _ => Except.ok (),
            lit "", lit "2025-02-02"⟩, lit "2025-02-02"⟩
          [⟨lit "empty", []⟩, ⟨lit "full", [lit "a"]⟩] :=
  (empty_collection_dangling_link
    ⟨fun _ => [], fun _ => ⟨fun _ => Except.ok (lit ""), fun _ => Except.ok (),
      lit "", lit "2025-02-02"⟩, lit "2025-02-02"⟩
    [⟨lit "empty", []⟩, ⟨lit "full", [lit "a"]⟩]
    ⟨lit "empty", []⟩ (by decide) rfl (by decide)).2.2

/-! ### Substring machinery for the navigation fragments -/

theorem prefix_append_split {α : Type} {p a b : List α} (h : p <+: a ++ b) :
    p <+: a ∨ ∃ u, p = a ++ u ∧ u <+: b := by
  induction a generalizing p with
  | nil => exact Or.inr ⟨p, rfl, by simpa using h⟩
  | cons x a ih =>
    rw [List.cons_append] at h
    rcases List.prefix_cons_iff.1 h with rfl | ⟨t, rfl, ht⟩
    · exact Or.inl List.nil_prefix
    · rcases ih ht with h' | ⟨u, rfl, hu⟩
      · exact Or.inl (List.cons_prefix_cons.2 ⟨rfl, h'⟩)
      · exact Or.inr ⟨u, by simp, hu⟩

/-- An occurrence of `pat` inside `a ++ b` lies inside `a`, inside `b`, or
straddles the boundary. -/
theorem infix_append_split {α : Type} {pat a b : List α} (h : pat <:+: a ++ b) :
    pat <:+: a ∨ pat <:+: b ∨
      ∃ p₁ p₂, p₁ ++ p₂ = pat ∧ p₁ ≠ [] ∧ p₂ ≠ [] ∧ p₁ <:+ a ∧ p₂ <+: b := by
  induction a generalizing pat with
  | nil => exact Or.inr (Or.inl (by simpa using h))
  | cons x a ih =>
    rw [List.cons_append, List.infix_cons_iff] at h
    rcases h with hpre | hinf
    · rcases List.prefix_cons_iff.1 hpre with rfl | ⟨t, rfl, ht⟩
      · exact Or.inl List.nil_infix
      · rcases prefix_append_split ht with h' | ⟨u, rfl, hu⟩
        · exact Or.inl (List.IsPrefix.isInfix (List.cons_prefix_cons.2 ⟨rfl, h'⟩))
        · rcases eq_or_ne u [] with rfl | hne
          · refine Or.inl ?_
            simp
          · refine Or.inr (Or.inr ⟨x :: a, u, by simp, by simp, hne, List.suffix_refl _, hu⟩)
    · rcases ih hinf with h' | h' | ⟨p₁, p₂, hsplit, h1, h2, hsuf, hpre2⟩
      · exact Or.inl (List.infix_cons h')
      · exact Or.inr (Or.inl h')
      · exact Or.inr (Or.inr ⟨p₁, p₂, hsplit, h1, h2, hsuf.trans (List.suffix_cons x a), hpre2⟩)

theorem not_infix_append_parts {pat a b : List Char}
    (ha : ¬ pat <:+: a) (hb : ¬ pat <:+: b)
    (hstr : ∀ p₁ p₂, p₁ ++ p₂ = pat → p₁ ≠ [] → p₂ ≠ [] → p₁ <:+ a → p₂ <+: b → False) :
    ¬ pat <:+: a ++ b := by
  intro h
  rcases infix_append_split h with h' | h' | ⟨p₁, p₂, hs, h1, h2, hsuf, hpre⟩
  · exact ha h'
  · exact hb h'
  · exact hstr p₁ p₂ hs h1 h2 hsuf hpre

theorem not_infix_of_head_notMem {pat l : List Char} {c : Char}
    (hpat : pat.head? = some c) (hc : c ∉ l) : ¬ pat <:+: l := by
  intro h
  rcases pat with - | ⟨p0, pr⟩
  · exact absurd hpat (by simp)
  · simp only [List.head?_cons, Option.some.injEq] at hpat
    subst hpat
    exact hc (h.subset (by simp))

/-- A straddling occurrence is impossible when the pattern's first character
does not occur on the left side. -/
theorem straddle_left {pat a : List Char} {c : Char} {p₁ p₂ : List Char}
    (hpat : pat.head? = some c) (hs : p₁ ++ p₂ = pat) (h1 : p₁ ≠ [])
    (hsuf : p₁ <:+ a) (hc : c ∉ a) : False := by
  rcases p₁ with - | ⟨q, qr⟩
  · exact h1 rfl
  · rw [← hs] at hpat
    simp only [List.cons_append, List.head?_cons, Option.some.injEq] at hpat
    subst hpat
    exact hc (hsuf.subset (by simp))

/-- A straddling occurrence is impossible when the right side's first
character does not occur in the pattern. -/
theorem straddle_right {pat : List Char} {d : Char} {rest : List Char} {p₁ p₂ : List Char}
    (hs : p₁ ++ p₂ = pat) (h2 : p₂ ≠ []) (hpre : p₂ <+: d :: rest) (hd : d ∉ pat) : False := by
  rcases List.prefix_cons_iff.1 hpre with rfl | ⟨t, ht, -⟩
  · exact h2 rfl
  · apply hd
    rw [← hs, ht]
    simp

theorem marker_not_in_safe {pat nm : List Char} {c : Char}
    (hc : c ∈ pat) (hcs : safeChar c = false) (hsafe : safeName nm) : ¬ pat <:+: nm := by
  intro h
  have h2 := hsafe c (h.subset hc)
  rw [hcs] at h2
  exact absurd h2 (by simp)

theorem arrow_notMem_safe {nm : List Char} (hsafe : safeName nm) : '←' ∉ nm := by
  intro h
  exact absurd (hsafe _ h) (by decide)

theorem prevMarker_not_in_label {cn : Str} (hc : safeName cn) :
    ¬ prevMarker <:+: collectionLabel cn := by
  apply not_infix_of_head_notMem (show prevMarker.head? = some '←' from by decide)
  unfold collectionLabel
  intro hmem
  rcases List.mem_append.1 hmem with h | h
  · rcases List.mem_append.1 h with h | h
    · exact absurd h (by decide)
    · exact arrow_notMem_safe hc h
  · exact absurd h (by decide)

theorem prevMarker_not_in_nextLink {n : Str} (hn : safeName n) :
    ¬ prevMarker <:+: nextLinkStr n := by
  apply not_infix_of_head_notMem (show prevMarker.head? = some '←' from by decide)
  unfold nextLinkStr
  intro hmem
  rcases List.mem_append.1 hmem with h | h
  · rcases List.mem_append.1 h with h | h
    · rcases List.mem_append.1 h with h | h
      · rcases List.mem_append.1 h with h | h
        · exact absurd h (by decide)
        · exact arrow_notMem_safe hn h
      · exact absurd h (by decide)
    · exact arrow_notMem_safe hn h
  · exact absurd h (by decide)

theorem nextMarker_not_in_label {cn : Str} (hc : safeName cn) :
    ¬ nextMarker <:+: collectionLabel cn := by
  unfold collectionLabel
  rw [List.append_assoc]
  apply not_infix_append_parts
  · exact not_infix_of_head_notMem (show nextMarker.head? = some 'N' from by decide) (by decide)
  · apply not_infix_append_parts
    · exact marker_not_in_safe (show ':' ∈ nextMarker from by decide) (by decide) hc
    · decide
    · intro p₁ p₂ hs h1 h2 hsuf hpre
      exact straddle_right hs h2 hpre (by decide)
  · intro p₁ p₂ hs h1 h2 hsuf hpre
    exact straddle_left (show nextMarker.head? = some 'N' from by decide) hs h1 hsuf (by decide)

theorem nextMarker_not_in_prevLink {p : Str} (hp : safeName p) :
    ¬ nextMarker <:+: prevLinkStr p := by
  unfold prevLinkStr
  simp only [List.append_assoc]
  apply not_infix_append_parts
  · exact not_infix_of_head_notMem (show nextMarker.head? = some 'N' from by decide) (by decide)
  · apply not_infix_append_parts
    · exact marker_not_in_safe (show ':' ∈ nextMarker from by decide) (by decide) hp
    · apply not_infix_append_parts
      · exact not_infix_of_head_notMem (show nextMarker.head? = some 'N' from by decide)
          (by decide)
      · apply not_infix_append_parts
        · exact marker_not_in_safe (show ':' ∈ nextMarker from by decide) (by decide) hp
        · decide
        · intro p₁ p₂ hs h1 h2 hsuf hpre
          exact straddle_right hs h2 hpre (by decide)
      · intro p₁ p₂ hs h1 h2 hsuf hpre
        exact straddle_left (show nextMarker.head? = some 'N' from by decide) hs h1 hsuf
          (by decide)
    · intro p₁ p₂ hs h1 h2 hsuf hpre
      exact straddle_right hs h2 hpre (by decide)
  · intro p₁ p₂ hs h1 h2 hsuf hpre
    exact straddle_left (show nextMarker.head? = some 'N' from by decide) hs h1 hsuf (by decide)

/-- A fragment generated with `prev = None` contains no previous-link text
anywhere. -/
theorem nav_html_no_prevMarker (info : NavInfo) (bottom : Bool)
    (hc : safeName info.collection_name)
    (hn : ∀ nx, info.next = some nx → safeName nx)
    (hprev : info.prev = none) :
    ¬ containsMarker (generate_nav_html info bottom) prevMarker := by
  rcases info with ⟨cn, pv, nx⟩
  simp only at hc hn
  subst hprev
  rintro ⟨s, hs, hinf⟩
  rcases nx with - | n <;> cases bottom <;>
    simp only [generate_nav_html, List.cons_append, List.nil_append, List.append_nil,
      List.singleton_append, if_true, if_false, eq_self_iff_true, Bool.false_eq_true,
      ite_true, ite_false] at hs <;>
    fin_cases hs <;>
    first
      | exact absurd hinf
          (not_infix_of_head_notMem (show prevMarker.head? = some '←' from by decide)
            (by decide))
      | exact prevMarker_not_in_label hc hinf
      | exact prevMarker_not_in_nextLink (hn n rfl) hinf

/-- A fragment generated with `next = None` contains no next-link text
anywhere. -/
theorem nav_html_no_nextMarker (info : NavInfo) (bottom : Bool)
    (hc : safeName info.collection_name)
    (hp : ∀ p, info.prev = some p → safeName p)
    (hnext : info.next = none) :
    ¬ containsMarker (generate_nav_html info bottom) nextMarker := by
  rcases info with ⟨cn, pv, nx⟩
  simp only at hc hp
  subst hnext
  rintro ⟨s, hs, hinf⟩
  rcases pv with - | p <;> cases bottom <;>
    simp only [generate_nav_html, List.cons_append, List.nil_append, List.append_nil,
      List.singleton_append, if_true, if_false, eq_self_iff_true, Bool.false_eq_true,
      ite_true, ite_false] at hs <;>
    fin_cases hs <;>
    first
      | exact absurd hinf
          (not_infix_of_head_notMem (show nextMarker.head? = some 'N' from by decide)
            (by decide))
      | exact nextMarker_not_in_label hc hinf
      | exact nextMarker_not_in_prevLink (hp p rfl) hinf

/-- C5: in a collection of `N` members ordered by path, the first member's
navigation fragment has no previous link, the last member's has no next
link, and every other member's fragment links to both neighbours. -/
theorem collection_nav_boundaries (cname : Str) (stems : List Str) (i : Nat) (bottom : Bool)
    (hi : i < stems.length)
    (hsc : safeName cname) (hss : ∀ s ∈ stems, safeName s) :
    (i = 0 → ¬ containsMarker (generate_nav_html (navInfoAt cname stems i) bottom) prevMarker) ∧
    (i = stems.length - 1 →
      ¬ containsMarker (generate_nav_html (navInfoAt cname stems i) bottom) nextMarker) ∧
    (0 < i → ∃ p, stems[i-1]? = some p ∧
      prevLinkStr p ∈ generate_nav_html (navInfoAt cname stems i) bottom) ∧
    (i < stems.length - 1 → ∃ nx, stems[i+1]? = some nx ∧
      nextLinkStr nx ∈ generate_nav_html (navInfoAt cname stems i) bottom) := by
  refine ⟨?_, ?_, ?_, ?_⟩
  · rintro rfl
    apply nav_html_no_prevMarker _ _ hsc
    · intro nx hnx
      simp only [navInfoAt] at hnx
      rcases hnxif : (if 0 < stems.length - 1 then stems[0+1]? else none) with - | nx'
      · rw [hnxif] at hnx
        exact absurd hnx (by simp)
      · rw [hnxif] at hnx
        obtain rfl := Option.some.inj hnx
        by_cases hlen : 0 < stems.length - 1
        · rw [if_pos hlen] at hnxif
          exact hss _ (List.getElem?_mem hnxif)
        · rw [if_neg hlen] at hnxif
          exact absurd hnxif (by simp)
    · simp [navInfoAt]
  · rintro rfl
    apply nav_html_no_nextMarker _ _ hsc
    · intro p hp
      simp only [navInfoAt] at hp
      rcases hpif : (if 0 < stems.length - 1 then stems[stems.length - 1 - 1]? else none)
          with - | p'
      · rw [hpif] at hp
        exact absurd hp (by simp)
      · rw [hpif] at hp
        obtain rfl := Option.some.inj hp
        by_cases hlen : 0 < stems.length - 1
        · rw [if_pos hlen] at hpif
          exact hss _ (List.getElem?_mem hpif)
        · rw [if_neg hlen] at hpif
          exact absurd hpif (by simp)
    · simp [navInfoAt]
  · intro h0
    have hlt : i - 1 < stems.length := lt_of_le_of_lt (Nat.sub_le i 1) hi
    refine ⟨stems[i-1], List.getElem?_eq_getElem hlt, ?_⟩
    cases bottom <;>
      simp [generate_nav_html, navInfoAt, h0, List.getElem?_eq_getElem hlt]
  · intro hlast
    have hlt : i + 1 < stems.length := Nat.add_lt_of_lt_sub hlast
    refine ⟨stems[i+1], List.getElem?_eq_getElem hlt, ?_⟩
    cases bottom <;>
      simp [generate_nav_html, navInfoAt, hlast, List.getElem?_eq_getElem hlt]

/-- Witness for C5 at a concrete input: the middle member of a three-member
collection links to both neighbours; the boundary members omit the
corresponding link. -/
theorem collection_nav_boundaries_witness :
    (¬ containsMarker
        (generate_nav_html (navInfoAt (lit "series") [lit "a", lit "b", lit "c"] 0) true)
        prevMarker) ∧
    (∃ nx, ([lit "a", lit "b", lit "c"] : List Str)[1]? = some nx ∧
      nextLinkStr nx ∈ generate_nav_html (navInfoAt (lit "series") [lit "a", lit "b", lit "c"] 0) true) ∧
    (∃ p, ([lit "a", lit "b", lit "c"] : List Str)[1]? = some p ∧
      prevLinkStr p ∈ generate_nav_html (navInfoAt (lit "series") [lit "a", lit "b", lit "c"] 2) true) ∧
    ¬ containsMarker
        (generate_nav_html (navInfoAt (lit "series") [lit "a", lit "b", lit "c"] 2) true)
        nextMarker := by
  have h0 := collection_nav_boundaries (lit "series") [lit "a", lit "b", lit "c"] 0 true
    (by decide) (by decide) (by decide)
  have h2 := collection_nav_boundaries (lit "series") [lit "a", lit "b", lit "c"] 2 true
    (by decide) (by decide) (by decide)
  exact ⟨h0.1 rfl, h0.2.2.2 (by decide), h2.2.2.1 (by decide), h2.2.1 rfl⟩

end BlogBuild
